import Mathlib

/-!
Verification of the live-server repository (`src/main.go`) against its
natural-language specification.

The Go program is embedded shallowly:
* Go strings (byte slices) are modelled as `List Char`; the relevant
  functions of Go's `strings` / `path/filepath` packages are translated
  directly (`leadsWith` for prefix testing, `splitFirst` for the
  left-most-occurrence search underlying `strings.Contains` and
  `strings.Replace(.., .., .., 1)`, `baseName` for `filepath.Base`,
  `stripLeadSlash` for `strings.TrimPrefix(path, "/")`).
* The file system (`os.ReadFile`) is a function from path to
  `Option` content; relative paths are resolved by the OS against the
  process working directory, so two distinct path strings are two
  distinct keys.
* The websocket client registry (`var clients = make(map[*websocket.Conn]bool)`,
  main.go line 14) is a duplicate-free list of opaque handles; Go's
  `delete` on the map is `deleteConn`, and the `for ws := range clients`
  send loop of `notifyReload` (lines 70-78) is `notifyIter` run on a
  snapshot of the key set.
* fsnotify operation masks are naturals with the library's bit values.
-/

namespace LiveServer

/-- `leadsWith pat s` is true when `pat` is an initial segment of `s`
(the byte-wise prefix test Go's `strings` package performs at each
candidate offset). -/
def leadsWith : List Char → List Char → Bool
  | [], _ => true
  | _ :: _, [] => false
  | p :: ps, c :: cs => p == c && leadsWith ps cs

/-- `splitFirst pat s` scans `s` left to right and splits it around the
first occurrence of `pat`: `some (pre, post)` with `s = pre ++ pat ++ post`
and `pre` shortest possible, or `none` when `pat` does not occur.  This is
the occurrence search shared by Go's `strings.Contains` and
`strings.Replace` with count 1 (main.go lines 188-191). -/
def splitFirst (pat : List Char) : List Char → Option (List Char × List Char)
  | [] => if leadsWith pat [] then some ([], []) else none
  | c :: cs =>
    if leadsWith pat (c :: cs) then some ([], (c :: cs).drop pat.length)
    else
      match splitFirst pat cs with
      | some (pre, post) => some (c :: pre, post)
      | none => none

/-- Go `strings.Contains(s, pat)` (main.go lines 188, 190). -/
def hasSubstr (s pat : List Char) : Bool :=
  (splitFirst pat s).isSome

/-- Go `strings.Replace(s, pat, rep, 1)`: replace the first occurrence of
`pat` in `s` by `rep`, or return `s` unchanged when `pat` does not occur
(main.go lines 189, 191). -/
def replaceFirst (s pat rep : List Char) : List Char :=
  match splitFirst pat s with
  | some (pre, post) => pre ++ rep ++ post
  | none => s

theorem leadsWith_iff (pat : List Char) :
    ∀ s : List Char, leadsWith pat s = true ↔ ∃ t, s = pat ++ t := by
  induction pat with
  | nil => intro s; simp [leadsWith]
  | cons p ps ih =>
    intro s
    cases s with
    | nil => simp [leadsWith]
    | cons c cs =>
      simp only [leadsWith, Bool.and_eq_true, beq_iff_eq, ih, List.cons_append,
        List.cons.injEq]
      constructor
      · rintro ⟨rfl, t, rfl⟩; exact ⟨t, rfl, rfl⟩
      · rintro ⟨t, rfl, rfl⟩; exact ⟨rfl, t, rfl⟩

theorem splitFirst_decomp (pat : List Char) :
    ∀ s pre post : List Char,
      splitFirst pat s = some (pre, post) → s = pre ++ pat ++ post := by
  intro s
  induction s with
  | nil =>
    intro pre post h
    by_cases hl : leadsWith pat [] = true
    · have ⟨t, ht⟩ := (leadsWith_iff pat []).mp hl
      have hpat : pat = [] := by
        cases pat with
        | nil => rfl
        | cons p ps => simp at ht
      simp [splitFirst, hl] at h
      obtain ⟨h1, h2⟩ := h
      subst h1; subst h2; subst hpat
      rfl
    · simp [splitFirst, hl] at h
  | cons c cs ih =>
    intro pre post h
    by_cases hl : leadsWith pat (c :: cs) = true
    · have ⟨t, ht⟩ := (leadsWith_iff pat (c :: cs)).mp hl
      simp only [splitFirst, hl, if_true, Option.some.injEq, Prod.mk.injEq] at h
      obtain ⟨h1, h2⟩ := h
      subst h2
      rw [← h1, List.nil_append, ht, List.drop_left]
    · simp only [splitFirst, hl, Bool.false_eq_true, if_false] at h
      cases hs : splitFirst pat cs with
      | none => rw [hs] at h; simp at h
      | some pq =>
        obtain ⟨p, q⟩ := pq
        rw [hs] at h
        simp only [Option.some.injEq, Prod.mk.injEq] at h
        have := ih p q hs
        rw [← h.1, ← h.2, this]
        simp

theorem splitFirst_shortest (pat : List Char) :
    ∀ s pre post pre' post' : List Char,
      splitFirst pat s = some (pre, post) →
      s = pre' ++ pat ++ post' → pre.length ≤ pre'.length := by
  intro s
  induction s with
  | nil =>
    intro pre post pre' post' h _
    by_cases hl : leadsWith pat [] = true
    · simp [splitFirst, hl] at h
      simp [h.1]
    · simp [splitFirst, hl] at h
  | cons c cs ih =>
    intro pre post pre' post' h hdec
    by_cases hl : leadsWith pat (c :: cs) = true
    · simp only [splitFirst, hl, if_true, Option.some.injEq, Prod.mk.injEq] at h
      simp [← h.1]
    · simp only [splitFirst, hl, Bool.false_eq_true, if_false] at h
      cases hs : splitFirst pat cs with
      | none => rw [hs] at h; simp at h
      | some pq =>
        obtain ⟨p, q⟩ := pq
        rw [hs] at h
        simp only [Option.some.injEq, Prod.mk.injEq] at h
        cases pre' with
        | nil =>
          exfalso
          apply hl
          apply (leadsWith_iff pat (c :: cs)).mpr
          exact ⟨post', by simpa using hdec⟩
        | cons c' pre'' =>
          simp only [List.cons_append, List.cons.injEq] at hdec
          have hle := ih p q pre'' post' hs hdec.2
          rw [← h.1]
          simpa using hle

theorem splitFirst_of_decomp (pat : List Char) :
    ∀ pre post : List Char,
      (splitFirst pat (pre ++ pat ++ post)).isSome = true := by
  intro pre
  induction pre with
  | nil =>
    intro post
    cases pat with
    | nil => cases post <;> simp [splitFirst, leadsWith]
    | cons p ps =>
      have hl : leadsWith (p :: ps) (p :: (ps ++ post)) = true :=
        (leadsWith_iff _ _).mpr ⟨post, by simp⟩
      show (splitFirst (p :: ps) (p :: (ps ++ post))).isSome = true
      simp [splitFirst, hl]
  | cons c pre' ih =>
    intro post
    simp only [List.cons_append, List.append_assoc]
    by_cases hl : leadsWith pat (c :: (pre' ++ (pat ++ post))) = true
    · simp [splitFirst, hl]
    · simp only [splitFirst, hl, Bool.false_eq_true, if_false]
      have hih := ih post
      rw [List.append_assoc] at hih
      cases hs : splitFirst pat (pre' ++ (pat ++ post)) with
      | none => rw [hs] at hih; simp at hih
      | some pq => cases pq; simp

theorem hasSubstr_iff (s pat : List Char) :
    hasSubstr s pat = true ↔ ∃ pre post, s = pre ++ pat ++ post := by
  constructor
  · intro h
    unfold hasSubstr at h
    cases hs : splitFirst pat s with
    | none => rw [hs] at h; simp at h
    | some pq =>
      obtain ⟨pre, post⟩ := pq
      exact ⟨pre, post, splitFirst_decomp pat s pre post hs⟩
  · rintro ⟨pre, post, rfl⟩
    exact splitFirst_of_decomp pat pre post

/-! ### HTML injection (main.go lines 172-194) -/

/-- The closing body tag literal the middleware searches for (main.go line 188). -/
def bodyTag : List Char := "</body>".toList

/-- The closing html tag literal the middleware searches for (main.go line 190). -/
def htmlTag : List Char := "</html>".toList

/-- The reload client script, exactly the Go raw string literal of
main.go lines 172-183 (it begins with a newline and ends right after
the closing script tag). -/
def reloadScript : List Char :=
  ("\n<script>\n    console.log(\"Connecting to live reload server...\");\n    const ws = new WebSocket(\"ws://\" + location.host + \"/ws\");\n    ws.onopen = () => console.log(\"Live reload connected\");\n    ws.onmessage = () => \x7b\n        console.log(\"Reloading page...\");\n        location.reload();\n    \x7d;\n    ws.onerror = (error) => console.log(\"WebSocket error:\", error);\n    ws.onclose = () => console.log(\"Live reload disconnected\");\n</script>").toList

/-- The block the middleware splices in before a closing tag: Go builds
`reloadScript + "\n" + tag`, so the inserted text is the script followed
by a newline (main.go lines 189, 191). -/
def scriptNl : List Char := reloadScript ++ ['\n']

/-- The content rewriting of `injectReloadScript`, main.go lines 185-194:
insert before the first closing body tag; else before the first closing
html tag; else append the script. -/
def injectContent (content : List Char) : List Char :=
  if hasSubstr content bodyTag then
    replaceFirst content bodyTag (scriptNl ++ bodyTag)
  else if hasSubstr content htmlTag then
    replaceFirst content htmlTag (scriptNl ++ htmlTag)
  else content ++ reloadScript

theorem hasSubstr_eq_false (s pat : List Char)
    (h : ¬ ∃ pre post, s = pre ++ pat ++ post) : hasSubstr s pat = false := by
  rcases Bool.eq_false_or_eq_true (hasSubstr s pat) with hb | hb
  · exact absurd ((hasSubstr_iff s pat).mp hb) h
  · exact hb

theorem replaceFirst_spec (s pat rep : List Char)
    (h : ∃ pre post, s = pre ++ pat ++ post) :
    ∃ pre post, s = pre ++ pat ++ post ∧
      (∀ pre' post', s = pre' ++ pat ++ post' → pre.length ≤ pre'.length) ∧
      replaceFirst s pat rep = pre ++ rep ++ post := by
  have hb : hasSubstr s pat = true := (hasSubstr_iff s pat).mpr h
  unfold hasSubstr at hb
  cases hs : splitFirst pat s with
  | none => rw [hs] at hb; simp at hb
  | some pq =>
    obtain ⟨pre, post⟩ := pq
    exact ⟨pre, post, splitFirst_decomp pat s pre post hs,
      fun pre' post' hd => splitFirst_shortest pat s pre post pre' post' hs hd,
      by simp [replaceFirst, hs]⟩

/-- Claim C1: for every HTML content served with injection, exactly one of
the three insertion strategies applies, in strict priority order: when the
content contains the literal closing body tag, the script block is inserted
immediately before its first occurrence and the rest of the document is
unchanged; else, when it contains the closing html tag, before that; else
the script is appended at the end. -/
theorem injection_priority (content : List Char) :
    ((∃ pre post, content = pre ++ bodyTag ++ post) →
      ∃ pre post,
        content = pre ++ bodyTag ++ post ∧
        (∀ pre' post', content = pre' ++ bodyTag ++ post' →
          pre.length ≤ pre'.length) ∧
        injectContent content = pre ++ scriptNl ++ bodyTag ++ post) ∧
    ((¬ ∃ pre post, content = pre ++ bodyTag ++ post) →
      (∃ pre post, content = pre ++ htmlTag ++ post) →
      ∃ pre post,
        content = pre ++ htmlTag ++ post ∧
        (∀ pre' post', content = pre' ++ htmlTag ++ post' →
          pre.length ≤ pre'.length) ∧
        injectContent content = pre ++ scriptNl ++ htmlTag ++ post) ∧
    ((¬ ∃ pre post, content = pre ++ bodyTag ++ post) →
      (¬ ∃ pre post, content = pre ++ htmlTag ++ post) →
      injectContent content = content ++ reloadScript) := by
  refine ⟨?_, ?_, ?_⟩
  · intro h
    have hb : hasSubstr content bodyTag = true := (hasSubstr_iff _ _).mpr h
    obtain ⟨pre, post, hdec, hmin, hrep⟩ :=
      replaceFirst_spec content bodyTag (scriptNl ++ bodyTag) h
    refine ⟨pre, post, hdec, hmin, ?_⟩
    simp only [injectContent, hb, if_true]
    rw [hrep]
    simp [List.append_assoc]
  · intro hnb h
    have hb := hasSubstr_eq_false content bodyTag hnb
    have hh : hasSubstr content htmlTag = true := (hasSubstr_iff _ _).mpr h
    obtain ⟨pre, post, hdec, hmin, hrep⟩ :=
      replaceFirst_spec content htmlTag (scriptNl ++ htmlTag) h
    refine ⟨pre, post, hdec, hmin, ?_⟩
    simp only [injectContent, hb, hh, Bool.false_eq_true, if_false, if_true]
    rw [hrep]
    simp [List.append_assoc]
  · intro hnb hnh
    have hb := hasSubstr_eq_false content bodyTag hnb
    have hh := hasSubstr_eq_false content htmlTag hnh
    simp [injectContent, hb, hh]

/-- Concrete run of `injection_priority` on a document containing a
closing body tag. -/
theorem injection_priority_check :
    ∃ pre post,
      ("<p></body>".toList : List Char) = pre ++ bodyTag ++ post ∧
      (∀ pre' post', ("<p></body>".toList : List Char) = pre' ++ bodyTag ++ post' →
        pre.length ≤ pre'.length) ∧
      injectContent ("<p></body>".toList) = pre ++ scriptNl ++ bodyTag ++ post :=
  (injection_priority ("<p></body>".toList)).1 ⟨"<p>".toList, [], by decide⟩

/-- Claim C8: for HTML content containing neither the closing body tag
literal nor the closing html tag literal, the injected output is exactly
the original content with the reload script appended at the end. -/
theorem inject_append_fallback (content : List Char)
    (hnb : ¬ ∃ pre post, content = pre ++ bodyTag ++ post)
    (hnh : ¬ ∃ pre post, content = pre ++ htmlTag ++ post) :
    injectContent content = content ++ reloadScript := by
  have hb := hasSubstr_eq_false content bodyTag hnb
  have hh := hasSubstr_eq_false content htmlTag hnh
  simp [injectContent, hb, hh]

/-- Concrete run of `inject_append_fallback` on tagless content. -/
theorem inject_append_fallback_check :
    injectContent ("<p>hello".toList) = "<p>hello".toList ++ reloadScript :=
  inject_append_fallback ("<p>hello".toList)
    (fun h => absurd ((hasSubstr_iff _ _).mpr h) (by decide))
    (fun h => absurd ((hasSubstr_iff _ _).mpr h) (by decide))

/-! ### HTTP middleware (main.go lines 143-202) -/

/-- Go `strings.TrimPrefix(path, "/")`: drop one leading slash when
present (main.go line 160). -/
def stripLeadSlash : List Char → List Char
  | '/' :: rest => rest
  | p => p

/-- Drop the run of trailing slashes, as the first loop of Go
`filepath.Base` does. -/
def stripTrailSlashes (p : List Char) : List Char :=
  (p.reverse.dropWhile (fun c => c == '/')).reverse

/-- The segment after the last slash. -/
def afterLastSlash (p : List Char) : List Char :=
  (p.reverse.takeWhile (fun c => c != '/')).reverse

/-- Go `filepath.Base` on a Unix path (main.go line 149): empty path
gives a dot, a path of only slashes gives a slash, otherwise the last
element after stripping trailing slashes. -/
def baseName (p : List Char) : List Char :=
  if p = [] then ['.']
  else
    let r := afterLastSlash (stripTrailSlashes p)
    if r = [] then ['/'] else r

/-- The middleware's injection test (main.go lines 147-149): root path,
slash plus the entry file name, or last path segment equal to the entry
file name. -/
def shouldInject (path entry : List Char) : Bool :=
  path == ['/'] || path == '/' :: entry || baseName path == entry

/-- The path handed to `os.ReadFile` (main.go lines 155-165): the bare
entry file name for the root path, otherwise the request path with the
leading slash stripped (falling back to the entry name when that leaves
nothing).  Note the result is relative: it is resolved by the OS against
the process working directory, not against the served directory. -/
def resolvePath (path entry : List Char) : List Char :=
  if path = ['/'] then entry
  else
    let fp := stripLeadSlash path
    if fp = [] then entry else fp

/-- The file system as seen through `os.ReadFile`: a map from the path
string passed in to `some` content, or `none` when the read fails. -/
structure FileSystem where
  read : List Char → Option (List Char)

/-- Observable outcome of one request through the middleware:
an injected HTML body (with Content-Type set to text/html), the
`http.NotFound` response, or delegation of the untouched request to the
wrapped static file server. -/
inductive Response where
  | injected : List Char → Response
  | notFound : Response
  | passthrough : Response
deriving DecidableEq

/-- One request through the handler returned by `injectReloadScript`
(main.go lines 144-201). -/
def serveRequest (fs : FileSystem) (entry path : List Char) : Response :=
  if shouldInject path entry then
    match fs.read (resolvePath path entry) with
    | none => Response.notFound
    | some data => Response.injected (injectContent data)
  else Response.passthrough

/-- `filepath.Join`-style concatenation of a directory and a file name,
used only to name the path of the entry file inside the served root. -/
def dirJoin (dir file : List Char) : List Char := dir ++ ['/'] ++ file

/-- A file system on which every read fails. -/
def emptyFs : FileSystem := ⟨fun _ => none⟩

/-- A fixed page used by the concrete checks. -/
def pageContent : List Char := "<html><body></body></html>".toList

/-- A file system whose working directory holds exactly the entry file. -/
def oneFileFs : FileSystem :=
  ⟨fun p => if p = "index.html".toList then some pageContent else none⟩

/-- A file system where the entry file exists only inside the served
root directory, not in the process working directory. -/
def cwdMissingFs : FileSystem :=
  ⟨fun p => if p = dirJoin ("/srv".toList) ("index.html".toList) then
      some pageContent
    else none⟩

/-- Whether a response carries an injected body. -/
def isInjected : Response → Bool
  | Response.injected _ => true
  | _ => false

theorem shouldInject_iff (path entry : List Char) :
    shouldInject path entry = true ↔
      (path = ['/'] ∨ path = '/' :: entry ∨ baseName path = entry) := by
  simp [shouldInject, or_assoc]

/-- Claim C2 fails as stated: on the root path with the entry file
unreadable, the path condition holds yet no script is injected — the
middleware answers not-found instead. -/
theorem inject_iff_path_cex :
    shouldInject ("/".toList) ("index.html".toList) = true ∧
    serveRequest emptyFs ("index.html".toList) ("/".toList) = Response.notFound ∧
    isInjected (serveRequest emptyFs ("index.html".toList) ("/".toList)) = false := by
  decide

/-- Claim C2, amended: the middleware injects the reload script if and
only if the path condition holds and the resolved file is readable; it
delegates to the wrapped static server, with the request untouched,
exactly when the path condition fails. -/
theorem inject_iff_path_amended (fs : FileSystem) (entry path : List Char) :
    (isInjected (serveRequest fs entry path) = true ↔
      ((path = ['/'] ∨ path = '/' :: entry ∨ baseName path = entry) ∧
        (fs.read (resolvePath path entry)).isSome = true)) ∧
    (serveRequest fs entry path = Response.passthrough ↔
      ¬ (path = ['/'] ∨ path = '/' :: entry ∨ baseName path = entry)) ∧
    (∀ data, fs.read (resolvePath path entry) = some data →
      (path = ['/'] ∨ path = '/' :: entry ∨ baseName path = entry) →
      serveRequest fs entry path = Response.injected (injectContent data)) := by
  by_cases hsi : shouldInject path entry = true
  · have hcond := (shouldInject_iff path entry).mp hsi
    cases hr : fs.read (resolvePath path entry) with
    | none =>
      refine ⟨?_, ?_, ?_⟩
      · simp [serveRequest, hsi, hr, isInjected, hcond]
      · simp [serveRequest, hsi, hr, hcond]
      · intro data hd _; simp [hr] at hd
    | some data =>
      refine ⟨?_, ?_, ?_⟩
      · simp [serveRequest, hsi, hr, isInjected, hcond]
      · simp [serveRequest, hsi, hr, hcond]
      · intro d hd _
        obtain rfl : data = d := by injection hd
        simp [serveRequest, hsi, hr]
  · have hsif : shouldInject path entry = false := by simpa using hsi
    have hcond : ¬ (path = ['/'] ∨ path = '/' :: entry ∨ baseName path = entry) :=
      fun hc => hsi ((shouldInject_iff path entry).mpr hc)
    refine ⟨?_, ?_, ?_⟩
    · simp [serveRequest, hsif, isInjected, hcond]
    · simp [serveRequest, hsif, hcond]
    · intro data _ hc; exact absurd hc hcond

/-- Concrete run of the amended claim: the entry file, readable in the
working directory and requested by name, is served with the script
injected. -/
theorem inject_iff_path_check :
    serveRequest oneFileFs ("index.html".toList) ("/index.html".toList) =
      Response.injected (injectContent pageContent) :=
  (inject_iff_path_amended oneFileFs ("index.html".toList)
      ("/index.html".toList)).2.2 pageContent (by decide) (by decide)

/-- Claim C3: when the injection condition holds but the resolved file
cannot be read, the middleware answers not-found; it neither delegates
to the wrapped server nor injects — the outcomes are mutually
exclusive. -/
theorem notFound_on_read_failure (fs : FileSystem) (entry path : List Char)
    (hs : shouldInject path entry = true)
    (hr : fs.read (resolvePath path entry) = none) :
    serveRequest fs entry path = Response.notFound ∧
    serveRequest fs entry path ≠ Response.passthrough ∧
    isInjected (serveRequest fs entry path) = false := by
  simp [serveRequest, hs, hr, isInjected]

/-- Concrete run of `notFound_on_read_failure` on an unreadable entry. -/
theorem notFound_on_read_failure_check :
    serveRequest emptyFs ("index.html".toList) ("/index.html".toList) =
        Response.notFound ∧
    serveRequest emptyFs ("index.html".toList) ("/index.html".toList) ≠
        Response.passthrough ∧
    isInjected (serveRequest emptyFs ("index.html".toList)
        ("/index.html".toList)) = false :=
  notFound_on_read_failure emptyFs ("index.html".toList)
    ("/index.html".toList) (by decide) rfl

/-- Claim C10: a request to the root path reads the entry document by
its bare file name, which the OS resolves against the process working
directory, not against the served root derived from the entry file's
absolute path; so the root path yields the entry content only when the
working directory holds a file of that name, and a not-found response
otherwise, even when the file exists inside the served root. -/
theorem root_read_cwd (fs fs2 : FileSystem) (root entry content data : List Char)
    (h1 : fs.read entry = none)
    (_h2 : fs.read (dirJoin root entry) = some content)
    (h3 : fs2.read entry = some data) :
    serveRequest fs entry ['/'] = Response.notFound ∧
    serveRequest fs2 entry ['/'] = Response.injected (injectContent data) := by
  constructor
  · simp [serveRequest, shouldInject, resolvePath, h1]
  · simp [serveRequest, shouldInject, resolvePath, h3]

/-- Concrete run of `root_read_cwd`: the same entry name answers
not-found when only the served root holds the file, and the injected
page when the working directory holds it. -/
theorem root_read_cwd_check :
    serveRequest cwdMissingFs ("index.html".toList) ['/'] = Response.notFound ∧
    serveRequest oneFileFs ("index.html".toList) ['/'] =
      Response.injected (injectContent pageContent) :=
  root_read_cwd cwdMissingFs oneFileFs ("/srv".toList) ("index.html".toList)
    pageContent pageContent (by decide) (by decide) (by decide)

/-! ### Client registry and reload broadcast (main.go lines 14, 53-78) -/

/-- An opaque websocket connection handle (`*websocket.Conn`). -/
abbrev Conn := Nat

/-- Go `delete(clients, ws)` on the registry map, main.go lines 56 and
75; the registry is modelled as its duplicate-free key list, so removal
filters the handle out. -/
def deleteConn (c : Conn) (clients : List Conn) : List Conn :=
  clients.filter (fun x => x != c)

/-- The send loop body of `notifyReload` (main.go lines 71-77): walk the
snapshot of registered connections, and delete from the registry each
connection whose send fails.  `sendOk` is the outcome of
`websocket.Message.Send` for each handle. -/
def notifyIter (sendOk : Conn → Bool) : List Conn → List Conn → List Conn
  | [], clients => clients
  | c :: rest, clients =>
    notifyIter sendOk rest (if sendOk c then clients else deleteConn c clients)

/-- `notifyReload` (main.go lines 70-78): iterate over the registry's
own key set, pruning every connection whose send attempt fails. -/
def notifyReload (sendOk : Conn → Bool) (clients : List Conn) : List Conn :=
  notifyIter sendOk clients clients

theorem mem_deleteConn (c d : Conn) (l : List Conn) :
    c ∈ deleteConn d l ↔ c ∈ l ∧ c ≠ d := by
  simp [deleteConn, List.mem_filter]

theorem mem_notifyIter (sendOk : Conn → Bool) :
    ∀ (order clients : List Conn) (c : Conn),
      c ∈ notifyIter sendOk order clients ↔
        (c ∈ clients ∧ (sendOk c = true ∨ c ∉ order)) := by
  intro order
  induction order with
  | nil => intro clients c; simp [notifyIter]
  | cons d rest ih =>
    intro clients c
    simp only [notifyIter, ih]
    by_cases hcd : c = d
    · subst hcd
      by_cases hsd : sendOk c = true
      · simp [hsd]
      · simp [hsd, mem_deleteConn]
    · by_cases hsd : sendOk d = true
      · simp only [hsd, if_true]
        constructor
        · rintro ⟨hm, hs⟩
          exact ⟨hm, hs.imp id (fun hn => by simp [List.mem_cons, hcd, hn])⟩
        · rintro ⟨hm, hs⟩
          refine ⟨hm, hs.imp id (fun hn => ?_)⟩
          intro hr; exact hn (List.mem_cons_of_mem d hr)
      · simp only [hsd, Bool.false_eq_true, if_false, mem_deleteConn]
        constructor
        · rintro ⟨⟨hm, _⟩, hs⟩
          exact ⟨hm, hs.imp id (fun hn => by simp [List.mem_cons, hcd, hn])⟩
        · rintro ⟨hm, hs⟩
          refine ⟨⟨hm, hcd⟩, hs.imp id (fun hn => ?_)⟩
          intro hr; exact hn (List.mem_cons_of_mem d hr)

/-- Claim C5: after one `notifyReload` pass over a registry state, a
connection is still registered exactly when it was registered before and
its send attempt succeeded — every failed send has been pruned, every
successful one remains. -/
theorem broadcast_prunes_failures (sendOk : Conn → Bool)
    (clients : List Conn) (c : Conn) :
    c ∈ notifyReload sendOk clients ↔ (c ∈ clients ∧ sendOk c = true) := by
  rw [notifyReload, mem_notifyIter]
  constructor
  · rintro ⟨hm, hs | hn⟩
    · exact ⟨hm, hs⟩
    · exact absurd hm hn
  · rintro ⟨hm, hs⟩
    exact ⟨hm, Or.inl hs⟩

/-- Concrete run of `broadcast_prunes_failures`: with sends failing for
odd handles, handle 2 survives the broadcast and handle 3 is pruned. -/
theorem broadcast_prunes_failures_check :
    (2 ∈ notifyReload (fun c => c % 2 == 0) [2, 3] ↔
      (2 ∈ [2, 3] ∧ (2 % 2 == 0) = true)) ∧
    (3 ∈ notifyReload (fun c => c % 2 == 0) [2, 3] ↔
      (3 ∈ [2, 3] ∧ (3 % 2 == 0) = true)) :=
  ⟨broadcast_prunes_failures (fun c => c % 2 == 0) [2, 3] 2,
   broadcast_prunes_failures (fun c => c % 2 == 0) [2, 3] 3⟩

/-- Claim C6: `delete(clients, ws)` is idempotent — deleting the same
handle twice leaves the registry as deleting it once does — and deleting
an absent handle is a no-op, not an error. -/
theorem unregister_idempotent (c : Conn) (clients : List Conn) :
    deleteConn c (deleteConn c clients) = deleteConn c clients ∧
    (c ∉ clients → deleteConn c clients = clients) := by
  constructor
  · simp [deleteConn, List.filter_filter]
  · intro hc
    apply List.filter_eq_self.mpr
    intro x hx
    simp only [bne_iff_ne, ne_eq]
    intro hxc; exact hc (hxc ▸ hx)

/-- Concrete run of `unregister_idempotent` on registry `[2, 3]` with
the absent handle 1. -/
theorem unregister_idempotent_check :
    deleteConn 1 (deleteConn 1 [2, 3]) = deleteConn 1 [2, 3] ∧
    deleteConn 1 [2, 3] = [2, 3] :=
  ⟨(unregister_idempotent 1 [2, 3]).1,
   (unregister_idempotent 1 [2, 3]).2 (by decide)⟩

/-! ### Watch loop and dispatcher (main.go lines 80-114) -/

/-- fsnotify operation bit for Create. -/
def opCreate : Nat := 1

/-- fsnotify operation bit for Write. -/
def opWrite : Nat := 2

/-- fsnotify operation bit for Remove. -/
def opRemove : Nat := 4

/-- fsnotify operation bit for Rename. -/
def opRename : Nat := 8

/-- fsnotify operation bit for Chmod (metadata-only change). -/
def opChmod : Nat := 16

/-- An fsnotify event: path name and operation bit mask. -/
structure ChangeEvent where
  name : List Char
  op : Nat

/-- The filter of the watch loop (main.go line 106):
`event.Op&fsnotify.Write == fsnotify.Write || event.Op&fsnotify.Create == fsnotify.Create`. -/
def shouldReload (op : Nat) : Bool :=
  (op &&& opWrite == opWrite) || (op &&& opCreate == opCreate)

/-- One iteration of the watch loop's event arm (main.go lines 104-109):
on an accepted event call `notifyReload` once, otherwise leave the
registry alone; the second component counts the `notifyReload` calls
made for the event. -/
def dispatchEvent (sendOk : Conn → Bool) (ev : ChangeEvent)
    (clients : List Conn) : List Conn × Nat :=
  if shouldReload ev.op then (notifyReload sendOk clients, 1) else (clients, 0)

/-- Claim C4: for every event the dispatcher consumes, `notifyReload` is
invoked exactly once when the operation mask includes Write or Create,
and is not invoked otherwise — in particular not for a pure metadata
(chmod) event. -/
theorem dispatch_filter (sendOk : Conn → Bool) (ev : ChangeEvent)
    (clients : List Conn) :
    ((ev.op &&& opWrite = opWrite ∨ ev.op &&& opCreate = opCreate) →
      (dispatchEvent sendOk ev clients).2 = 1 ∧
      (dispatchEvent sendOk ev clients).1 = notifyReload sendOk clients) ∧
    ((ev.op &&& opWrite ≠ opWrite ∧ ev.op &&& opCreate ≠ opCreate) →
      (dispatchEvent sendOk ev clients).2 = 0 ∧
      (dispatchEvent sendOk ev clients).1 = clients) := by
  constructor
  · intro h
    have hs : shouldReload ev.op = true := by
      rcases h with h | h <;> simp [shouldReload, h]
    simp [dispatchEvent, hs]
  · rintro ⟨h1, h2⟩
    have hs : shouldReload ev.op = false := by
      simp [shouldReload, h1, h2]
    simp [dispatchEvent, hs]

/-- Concrete run of `dispatch_filter`: a Write event broadcasts once, a
pure Chmod event does not broadcast. -/
theorem dispatch_filter_check :
    (dispatchEvent (fun _ => true) ⟨[], opWrite⟩ []).2 = 1 ∧
    (dispatchEvent (fun _ => true) ⟨[], opChmod⟩ []).2 = 0 :=
  ⟨((dispatch_filter (fun _ => true) ⟨[], opWrite⟩ []).1
      (Or.inl (by decide))).1,
   ((dispatch_filter (fun _ => true) ⟨[], opChmod⟩ []).2 (by decide)).1⟩

/-! ### Startup error handling (main.go lines 26-29, 47, 80-86) -/

/-- The diagnostic `watchFiles` prints when the watcher cannot be
created (main.go line 84). -/
def watcherErrMsg : List Char := "Error creating watcher:".toList

/-- What `watchFiles` does before entering its loop (main.go lines
82-89): when `fsnotify.NewWatcher()` fails it prints the diagnostic and
returns; otherwise the watch loop runs.  The first component lists the
diagnostics printed, the second records whether the watch loop is
running. -/
def watchFilesInit (watcherOk : Bool) : List (List Char) × Bool :=
  if watcherOk then ([], true) else ([watcherErrMsg], false)

/-- Outcome of process startup: an aborted process (a Go `panic`), or a
serving process whose flag records whether the watch loop is running. -/
inductive StartOutcome where
  | abort : StartOutcome
  | serve : Bool → StartOutcome
deriving DecidableEq

/-- Whether a startup outcome is an aborted process. -/
def isAbort : StartOutcome → Bool
  | StartOutcome.abort => true
  | StartOutcome.serve _ => false

/-- Startup control flow of `main` (main.go lines 26-50): a failure of
`filepath.Abs` panics, aborting the process; `watchFiles` then runs on
its own goroutine, so whether or not the watcher could be created, the
main goroutine goes on to `http.ListenAndServe`. -/
def mainStartup (absOk watcherOk : Bool) : StartOutcome :=
  if absOk then StartOutcome.serve (watchFilesInit watcherOk).2
  else StartOutcome.abort

/-- Claim C7 fails as stated: when the watcher cannot be created, the
process does not abort — `watchFiles` prints its diagnostic and returns
from its goroutine while the main goroutine keeps serving, now with no
watching at all. -/
theorem watcher_failure_cex :
    mainStartup true false = StartOutcome.serve false ∧
    isAbort (mainStartup true false) = false ∧
    (watchFilesInit false).1 ≠ [] := by
  decide

/-- Claim C7, amended: when the filesystem-watch subscription cannot be
created, a diagnostic is emitted and the watch loop never runs, but the
process does not abort — it continues serving without watching. -/
theorem watcher_failure_amended (absOk : Bool) (h : absOk = true) :
    (watchFilesInit false).1 = [watcherErrMsg] ∧
    mainStartup absOk false = StartOutcome.serve false ∧
    isAbort (mainStartup absOk false) = false := by
  subst h
  decide

/-- Concrete run of `watcher_failure_amended` at a successful
absolute-path resolution. -/
theorem watcher_failure_check :
    (watchFilesInit false).1 = [watcherErrMsg] ∧
    mainStartup true false = StartOutcome.serve false ∧
    isAbort (mainStartup true false) = false :=
  watcher_failure_amended true rfl

end LiveServer
